import Mathlib

/-!
Verification of the message-framing protocol and communicator lifecycle of
`magnetometer_wrapper` (`AbstractDeviceCommunicator` in
`abstract_classes/device_communicator.py`, plus the transport-facing methods
of `SerialCommunicator` in `serial_communicator.py`).

The embedding is shallow: characters are Lean `Char`s, the device stream is a
`List Char` of the characters the transport will deliver (one `read()` call
pops one character; an exhausted stream models a `read()` call that raises),
and the communicator object together with its mock transport — exactly the
shape of the repository's own unit-test fixture `ConcreteDeviceCommunicator`
— is a record `CommState`.  Python's `deque(maxlen=n)` sliding window is
modelled by `pushWin`, and the regular expression
`^(.|\n)*(?=T$)` of `_everything_but_terminator_regex` is modelled by
`stripTerm`.  The code interpolates the terminator into that pattern
unescaped, so the pattern treats the terminator literally exactly when the
terminator contains no regex metacharacter; `regexLiteral` names that
regime, `stripTerm` is the pattern's semantics inside it (match iff the
string ends with the terminator, `group(0)` strips that final terminator),
and every theorem that quantifies over terminators and relies on
`stripTerm` carries the `regexLiteral` hypothesis — outside the regime the
program differs (a terminator such as `a*` is not stripped because the
lookahead also matches the empty repetition, and a lone `(` makes the
pattern fail to compile).
-/

namespace MagWrap

/-- Last `n` elements of a list: the contents of a `deque(maxlen := n)` after
all elements of `l` have been appended in order. -/
def lastN (n : Nat) (l : List Char) : List Char :=
  l.drop (l.length - n)

/-- One `append` on a `deque(maxlen := n)`: the new element is pushed on the
right and, if the deque was full, the oldest element falls off the left. -/
def pushWin (n : Nat) (w : List Char) (c : Char) : List Char :=
  (w ++ [c]).drop (w.length + 1 - n)

/-- Embeds `AbstractDeviceCommunicator._should_keep_reading`: keep reading
while the tuple of the last characters read differs from the tuple of the
termination characters. -/
def shouldKeepReading (term w : List Char) : Bool :=
  decide (w ≠ term)

/-- Embeds the generator `AbstractDeviceCommunicator.__iter__` run to
completion: while `_should_keep_reading(window)`, read one character, append
it to the window and yield it.  Returns the yielded characters together with
the part of the stream left unconsumed, or `none` when `read()` raises
because the stream is exhausted before the window matches. -/
def iterRead (term : List Char) (w : List Char) (stream : List Char) (acc : List Char) :
    Option (List Char × List Char) :=
  if shouldKeepReading term w then
    match stream with
    | [] => none
    | c :: rest => iterRead term (pushWin term.length w c) rest (c :: acc)
  else
    some (acc.reverse, stream)

/-- Reference recursion for `iterRead` in which the window and the
accumulator are replaced by the consumed prefix `C` of the stream; the
bridge lemma `iterRead_eq_readSpec` proves it equal to `iterRead`. -/
def readSpec (term : List Char) (C : List Char) (rest : List Char) :
    Option (List Char × List Char) :=
  if lastN term.length C = term then
    some (C, rest)
  else
    match rest with
    | [] => none
    | c :: rs => readSpec term (C ++ [c]) rs

/-- Characters that Python's `re` treats specially in a pattern.  The
terminator is interpolated into `_everything_but_terminator_regex` without
escaping, so only terminators free of these characters are matched
literally by the compiled pattern. -/
def regexSpecial (c : Char) : Bool :=
  c ∈ ['.', '^', '$', '*', '+', '?', '\x7b', '\x7d', '[', ']', '\\', '|', '(', ')']

/-- Terminators the unescaped interpolation treats as literal text: no
character of the terminator is a regex metacharacter. -/
def regexLiteral (term : List Char) : Bool :=
  term.all (fun c => !regexSpecial c)

/-- Embeds the `match` of `_everything_but_terminator_regex` against the
string `S` read by the iterator, for terminators in the `regexLiteral`
regime: there the pattern `^(.|\n)*(?=T$)` matches exactly when `S` ends
with the terminator, and `group(0)` is then `S` with that final terminator
removed; `none` models the `IOError` branches of
`_last_read_message_from_device`.  For terminators containing regex
metacharacters the program's pattern behaves differently (or fails to
compile), so theorems quantifying over terminators assume `regexLiteral`. -/
def stripTerm (term S : List Char) : Option (List Char) :=
  if lastN term.length S = term then
    some (S.take (S.length - term.length))
  else
    none

/-- Errors observable through `query`: `transport c` models an exception
object raised by the transport (the code `c` identifies the original
exception, so propagating it unchanged is propagating the same `c`), and
`noTermMatch` models the `IOError` raised by
`_last_read_message_from_device` when the regex finds no match. -/
inductive DevError where
  | transport (code : Nat)
  | noTermMatch
deriving DecidableEq

/-- State of a communicator wired to a mock transport, mirroring the unit
test fixture `ConcreteDeviceCommunicator`: `terminator` is
`self._terminator`, `portOpen` the live `is_open` of the transport,
`stream` the characters the device will deliver to successive `read()`
calls, `written` the log of `write` calls, `opens`/`closes` count the
underlying transport open/close calls (the `mock_port` call record), and
`writeFault`/`readFaultCode` configure injected transport exceptions. -/
structure CommState where
  port : String
  terminator : List Char
  portOpen : Bool
  stream : List Char
  written : List (List Char)
  opens : Nat
  closes : Nat
  writeFault : Option Nat
  readFaultCode : Nat
deriving DecidableEq

/-- Embeds `AbstractDeviceCommunicator.__init__(port, termination_characters)`:
both arguments are stored, nothing is validated.  The transport-side fields
describe the mock transport the fresh communicator is wired to. -/
def mkComm (port : String) (terminator : List Char) (stream : List Char) : CommState :=
  { port := port
    terminator := terminator
    portOpen := false
    stream := stream
    written := []
    opens := 0
    closes := 0
    writeFault := none
    readFaultCode := 0 }

/-- Embeds the `termination_characters` setter: the new value is stored,
nothing is validated. -/
def setTermChars (s : CommState) (t : List Char) : CommState :=
  { s with terminator := t }

/-- Embeds `SerialCommunicator.open`: it delegates to the underlying
transport open unconditionally (there is no `is_open` check in `open`
itself), so the call count always grows. -/
def openPort (s : CommState) : CommState :=
  { s with portOpen := true, opens := s.opens + 1 }

/-- Embeds `SerialCommunicator.close`: unconditional delegation to the
underlying transport close. -/
def closePort (s : CommState) : CommState :=
  { s with portOpen := false, closes := s.closes + 1 }

/-- Embeds `AbstractDeviceCommunicator.__enter__`: open the port only if the
live `is_open` says it is not already open. -/
def enterCtx (s : CommState) : CommState :=
  if s.portOpen then s else openPort s

/-- Embeds `AbstractDeviceCommunicator.__exit__`: close the port whenever the
live `is_open` says it is open, regardless of who opened it. -/
def exitCtx (s : CommState) : CommState :=
  if s.portOpen then closePort s else s

/-- Embeds the abstract `write` of the mock transport: raise the injected
fault if one is configured, otherwise record the message. -/
def writeStep (msg : List Char) (s : CommState) : Except DevError CommState :=
  match s.writeFault with
  | some c => .error (.transport c)
  | none => .ok { s with written := s.written ++ [msg] }

/-- Embeds the property `AbstractDeviceCommunicator._last_read_message_from_device`:
join the characters yielded by `iter(self)`, then match the terminator
regex; a `read()` that raises propagates (as `transport readFaultCode`),
and a joined string in which the regex finds no match raises `IOError`
(`noTermMatch`).  The returned state records how much of the stream was
consumed. -/
def lastReadMessage (s : CommState) : Except DevError (List Char) × CommState :=
  match iterRead s.terminator [] s.stream [] with
  | none => (.error (.transport s.readFaultCode), { s with stream := [] })
  | some (yielded, rest) =>
    match stripTerm s.terminator yielded with
    | some body => (.ok body, { s with stream := rest })
    | none => (.error .noTermMatch, { s with stream := rest })

/-- Embeds `AbstractDeviceCommunicator.query`: `with self:` enters the
context manager, the body writes then reads, and `__exit__` runs on every
exit path — normal return and exception alike — after which the exception,
if any, reaches the caller unchanged. -/
def query (msg : List Char) (s : CommState) : Except DevError (List Char) × CommState :=
  match writeStep msg (enterCtx s) with
  | .error e => (.error e, exitCtx (enterCtx s))
  | .ok s2 =>
    match lastReadMessage s2 with
    | (.ok body, s3) => (.ok body, exitCtx s3)
    | (.error e, s3) => (.error e, exitCtx s3)

/-- A terminator occurrence position check: `T` occurs in `S` only as its
final suffix.  This is the boundary condition under which the sliding-window
matcher consumes all of `M ++ T`; bounding `k` keeps the predicate
decidable. -/
def onlyAtSuffix (T S : List Char) : Prop :=
  ∀ k, k < S.length + 1 → k + T.length ≤ S.length →
    (S.drop k).take T.length = T → k + T.length = S.length

instance (T S : List Char) : Decidable (onlyAtSuffix T S) := by
  unfold onlyAtSuffix
  infer_instance

/-- Occurrence test used to state the original claims' side conditions: `T`
appears as a contiguous substring of `S`. -/
def containsSeq (T S : List Char) : Prop :=
  ∃ k, k < S.length + 1 ∧ k + T.length ≤ S.length ∧ (S.drop k).take T.length = T

instance (T S : List Char) : Decidable (containsSeq T S) := by
  unfold containsSeq
  infer_instance

/-- The empty deque is the `lastN`-window of the empty consumed prefix. -/
lemma lastN_nil (n : Nat) : lastN n [] = [] := by
  simp [lastN]

/-- Appending to a full-or-filling window is taking the last `n` characters
of the extended consumed prefix. -/
lemma pushWin_lastN (n : Nat) (C : List Char) (c : Char) :
    pushWin n (lastN n C) c = lastN n (C ++ [c]) := by
  unfold pushWin lastN
  rw [List.length_drop, ← List.drop_append_of_le_length (Nat.sub_le C.length n),
    List.drop_drop, List.length_append]
  congr 1
  simp
  omega

/-- A list ending in `T` has `T` as its `lastN`-window. -/
lemma lastN_append (A T : List Char) : lastN T.length (A ++ T) = T := by
  unfold lastN
  rw [List.length_append, Nat.add_sub_cancel, List.drop_left]

/-- A list whose `lastN`-window is `term` decomposes as a prefix followed by
`term`. -/
lemma lastN_decomp {term P : List Char} (h : lastN term.length P = term) :
    P = P.take (P.length - term.length) ++ term := by
  unfold lastN at h
  conv_lhs => rw [← List.take_append_drop (P.length - term.length) P]
  rw [h]

/-- The generator loop equals the consumed-prefix recursion `readSpec`. -/
lemma iterRead_eq_readSpec (term : List Char) :
    ∀ (rest C : List Char),
      iterRead term (lastN term.length C) rest C.reverse = readSpec term C rest := by
  intro rest
  induction rest with
  | nil =>
    intro C
    unfold iterRead readSpec shouldKeepReading
    by_cases h : lastN term.length C = term <;> simp [h]
  | cons c rs ih =>
    intro C
    unfold iterRead readSpec shouldKeepReading
    by_cases h : lastN term.length C = term
    · simp [h]
    · simp only [h, decide_not, decide_False, Bool.not_false, if_true, ne_eq,
        not_false_eq_true, decide_True]
      rw [pushWin_lastN]
      have hrev : (c :: C.reverse) = (C ++ [c]).reverse := by simp
      rw [hrev]
      exact ih (C ++ [c])

/-- Running the generator from scratch is `readSpec` from the empty consumed
prefix. -/
lemma iterRead_run (term S : List Char) :
    iterRead term [] S [] = readSpec term [] S := by
  have h := iterRead_eq_readSpec term S []
  simpa [lastN_nil] using h

/-- Whatever `readSpec` returns splits the stream: the consumed part followed
by the leftover is the whole input, and the starting prefix is kept. -/
lemma readSpec_split (term : List Char) :
    ∀ (rest C P rem : List Char), readSpec term C rest = some (P, rem) →
      P ++ rem = C ++ rest ∧ C <+: P := by
  intro rest
  induction rest with
  | nil =>
    intro C P rem h
    unfold readSpec at h
    by_cases hc : lastN term.length C = term
    · simp [hc] at h
      simp [h.1, h.2]
    · simp [hc] at h
  | cons c rs ih =>
    intro C P rem h
    unfold readSpec at h
    by_cases hc : lastN term.length C = term
    · simp [hc] at h
      simp [h.1, h.2]
    · simp only [hc, if_false, if_neg] at h
      have h2 := ih (C ++ [c]) P rem h
      refine ⟨by rw [h2.1]; simp, ?_⟩
      exact ( List.prefix_append C [c]).trans h2.2

/-- The consumed part returned by `readSpec` always ends with the
terminator. -/
lemma readSpec_endsWith (term : List Char) :
    ∀ (rest C P rem : List Char), readSpec term C rest = some (P, rem) →
      lastN term.length P = term := by
  intro rest
  induction rest with
  | nil =>
    intro C P rem h
    unfold readSpec at h
    by_cases hc : lastN term.length C = term
    · simp [hc] at h
      obtain ⟨h1, _⟩ := h
      subst h1
      exact hc
    · simp [hc] at h
  | cons c rs ih =>
    intro C P rem h
    unfold readSpec at h
    by_cases hc : lastN term.length C = term
    · simp [hc] at h
      obtain ⟨h1, _⟩ := h
      subst h1
      exact hc
    · simp only [hc, if_false, if_neg] at h
      exact ih (C ++ [c]) P rem h

/-- First-match minimality: no stage strictly between the starting prefix and
the returned consumed part already had a matching window. -/
lemma readSpec_minimal (term : List Char) :
    ∀ (rest C P rem : List Char), readSpec term C rest = some (P, rem) →
      ∀ Q, C <+: Q → Q <+: P → Q.length < P.length → lastN term.length Q ≠ term := by
  intro rest
  induction rest with
  | nil =>
    intro C P rem h Q hCQ hQP hlt
    unfold readSpec at h
    by_cases hc : lastN term.length C = term
    · simp [hc] at h
      rw [← h.1] at hlt
      have := hCQ.length_le
      omega
    · simp [hc] at h
  | cons c rs ih =>
    intro C P rem h Q hCQ hQP hlt
    unfold readSpec at h
    by_cases hc : lastN term.length C = term
    · simp [hc] at h
      rw [← h.1] at hlt
      have := hCQ.length_le
      omega
    · simp only [hc, if_false, if_neg] at h
      by_cases hq : Q.length ≤ C.length
      · have hQC : Q = C := by
          have := hCQ.length_le
          exact (hCQ.eq_of_length (by omega)).symm
        rw [hQC]
        exact hc
      · have hsplit := readSpec_split term rs (C ++ [c]) P rem h
        have hCcP : C ++ [c] <+: P := hsplit.2
        have hCcQ : C ++ [c] <+: Q := by
          apply List.prefix_of_prefix_length_le hCcP hQP
          simp
          omega
        exact ih (C ++ [c]) P rem h Q hCcQ hQP hlt

/-- Totality on matched input: if some extension of the starting prefix within
the stream has a matching window, `readSpec` returns successfully. -/
lemma readSpec_total (term : List Char) :
    ∀ (rest C : List Char) (j : Nat), j ≤ rest.length →
      lastN term.length (C ++ rest.take j) = term →
      ∃ P rem, readSpec term C rest = some (P, rem) := by
  intro rest
  induction rest with
  | nil =>
    intro C j hj hmatch
    have hj0 : j = 0 := by simpa using hj
    subst hj0
    simp at hmatch
    exact ⟨C, [], by unfold readSpec; simp [hmatch]⟩
  | cons c rs ih =>
    intro C j hj hmatch
    unfold readSpec
    by_cases hc : lastN term.length C = term
    · exact ⟨C, c :: rs, by simp [hc]⟩
    · simp only [hc, if_false, if_neg]
      cases j with
      | zero =>
        simp at hmatch
        exact absurd hmatch hc
      | succ j' =>
        apply ih (C ++ [c]) j'
        · simpa using hj
        · simpa using hmatch

/-- A terminator never occurs in itself anywhere but at position zero. -/
lemma onlyAtSuffix_self (T : List Char) : onlyAtSuffix T T := by
  intro k _ h2 _
  omega

/-- When the terminator occurs in `M ++ T` only as the final suffix, the
generator consumes the whole stream `M ++ T` and nothing matched earlier. -/
lemma readSpec_onlySuffix (T M : List Char)
    (honly : onlyAtSuffix T (M ++ T)) :
    readSpec T [] (M ++ T) = some (M ++ T, []) := by
  obtain ⟨P, rem, hPr⟩ :=
    readSpec_total T (M ++ T) [] (M ++ T).length (Nat.le_refl _)
      (by rw [List.nil_append, List.take_length]; exact lastN_append M T)
  have hsplit := readSpec_split T (M ++ T) [] P rem hPr
  have happ : P ++ rem = M ++ T := by simpa using hsplit.1
  have hend := readSpec_endsWith T (M ++ T) [] P rem hPr
  have hdec := lastN_decomp hend
  have hocc : ((M ++ T).drop (P.length - T.length)).take T.length = T := by
    have hMT : M ++ T = P.take (P.length - T.length) ++ (T ++ rem) := by
      rw [← happ]
      conv_lhs => rw [hdec]
      simp
    rw [hMT, List.drop_left' (by simp), List.take_left' rfl]
  have hlenT : T.length ≤ P.length := by
    have := congrArg List.length hdec
    simp at this
    omega
  have hlen : P.length + rem.length = M.length + T.length := by
    have := congrArg List.length happ
    simpa using this
  have hk := honly (P.length - T.length) (by simp; omega) (by simp; omega) hocc
  have hrem : rem = [] := by
    have : rem.length = 0 := by simp at hk; omega
    exact List.eq_nil_of_length_eq_zero this
  subst hrem
  simp at happ
  rw [happ] at hPr
  exact hPr

/-- Fields of the state are unchanged by `__exit__` except openness and the
close counter; afterwards the port is always closed. -/
lemma exitCtx_fields (t : CommState) :
    (exitCtx t).portOpen = false ∧ (exitCtx t).stream = t.stream ∧
    (exitCtx t).opens = t.opens ∧ (exitCtx t).written = t.written ∧
    (exitCtx t).terminator = t.terminator := by
  unfold exitCtx closePort
  by_cases h : t.portOpen <;> simp [h]

/-- Entering the context manager preserves everything but openness and the
open counter, and leaves the port open. -/
lemma enterCtx_fields (t : CommState) :
    (enterCtx t).portOpen = true ∧ (enterCtx t).stream = t.stream ∧
    (enterCtx t).closes = t.closes ∧ (enterCtx t).written = t.written ∧
    (enterCtx t).terminator = t.terminator ∧
    (enterCtx t).writeFault = t.writeFault ∧
    (t.portOpen = false → (enterCtx t).opens = t.opens + 1) := by
  unfold enterCtx openPort
  by_cases h : t.portOpen <;> simp [h]

/-- A `write` that returns normally only appends to the write log. -/
lemma writeStep_ok_fields {msg : List Char} {t s2 : CommState}
    (h : writeStep msg t = .ok s2) :
    s2.portOpen = t.portOpen ∧ s2.stream = t.stream ∧ s2.closes = t.closes ∧
    s2.opens = t.opens ∧ s2.terminator = t.terminator ∧
    s2.written = t.written ++ [msg] := by
  unfold writeStep at h
  cases hf : t.writeFault with
  | some c => rw [hf] at h; exact absurd h (by simp)
  | none =>
    rw [hf] at h
    simp at h
    rw [← h]
    simp

/-- The read step touches no field but the stream. -/
lemma lastReadMessage_snd_fields (t : CommState) :
    (lastReadMessage t).2.portOpen = t.portOpen ∧
    (lastReadMessage t).2.closes = t.closes ∧
    (lastReadMessage t).2.opens = t.opens ∧
    (lastReadMessage t).2.written = t.written := by
  unfold lastReadMessage
  cases h : iterRead t.terminator [] t.stream [] with
  | none => simp
  | some pr =>
    cases hs : stripTerm t.terminator pr.1 <;> simp [hs]

/-- The regex strips exactly one trailing terminator from a string that ends
with it. -/
lemma stripTerm_append (T M : List Char) : stripTerm T (M ++ T) = some M := by
  unfold stripTerm
  rw [lastN_append, if_pos rfl, List.length_append, Nat.add_sub_cancel, List.take_left]

/-- Full read pipeline under the only-suffix condition: the whole stream is
consumed and the regex returns the body. -/
lemma lastReadMessage_framing (s : CommState) (M T : List Char)
    (hterm : s.terminator = T) (hstream : s.stream = M ++ T)
    (honly : onlyAtSuffix T (M ++ T)) :
    lastReadMessage s = (.ok M, { s with stream := [] }) := by
  unfold lastReadMessage
  rw [hterm, hstream, iterRead_run, readSpec_onlySuffix T M honly]
  simp [stripTerm_append]

/-- With the empty terminator the generator stops before its first read. -/
lemma iterRead_empty_term (S : List Char) : iterRead [] [] S [] = some ([], S) := by
  unfold iterRead shouldKeepReading
  simp

/-- With the empty terminator the read step returns the empty body without
touching the stream. -/
lemma lastReadMessage_empty_term (t : CommState) (h : t.terminator = []) :
    lastReadMessage t = (.ok [], { t with stream := t.stream }) := by
  unfold lastReadMessage
  rw [h, iterRead_empty_term]
  unfold stripTerm lastN
  simp

/-- Evaluation of `query` when the write step succeeds. -/
lemma query_run {msg : List Char} {s s2 : CommState}
    {r : Except DevError (List Char)} {s3 : CommState}
    (hw : writeStep msg (enterCtx s) = .ok s2)
    (hr : lastReadMessage s2 = (r, s3)) :
    query msg s = (r, exitCtx s3) := by
  unfold query
  rw [hw]
  simp only [hr]
  cases r <;> rfl

/-- Evaluation of `query` when the write step raises. -/
lemma query_write_error {msg : List Char} {s : CommState} {e : DevError}
    (hw : writeStep msg (enterCtx s) = .error e) :
    query msg s = (.error e, exitCtx (enterCtx s)) := by
  unfold query
  rw [hw]

/-- C1 (amended): for every non-empty terminator T that contains no regex
metacharacter (the program interpolates T unescaped into its stripping
pattern) and every message body M such that T occurs in M ++ T only as its
final suffix (in particular, no occurrence of T straddles the boundary
between M and T), reading one message from a stream delivering M followed
by T returns exactly M with the terminator stripped, and a stream
delivering T alone returns the empty body. -/
theorem C1_framing_reads_message (T M : List Char) (s s' : CommState)
    (_hT : T ≠ []) (_hlit : regexLiteral T = true)
    (hterm : s.terminator = T) (hstream : s.stream = M ++ T)
    (honly : onlyAtSuffix T (M ++ T))
    (hterm' : s'.terminator = T) (hstream' : s'.stream = T) :
    (lastReadMessage s).1 = .ok M ∧ (lastReadMessage s').1 = .ok [] := by
  have h1 := lastReadMessage_framing s M T hterm hstream honly
  have hstream'' : s'.stream = [] ++ T := by simpa using hstream'
  have h2 := lastReadMessage_framing s' [] T hterm' hstream''
    (by simpa using onlyAtSuffix_self T)
  rw [h1, h2]
  exact ⟨rfl, rfl⟩

/-- C1 counterexample: with terminator "aa" and body "a" — which does not
contain "aa" as a contiguous substring — the stream "a" + "aa" makes the
window match one character early (the occurrence straddling the M/T
boundary), so the read returns "" instead of "a". -/
theorem C1_counterexample_boundary_overlap :
    (['a','a'] : List Char) ≠ [] ∧
    ¬ containsSeq ['a','a'] ['a'] ∧
    (lastReadMessage (mkComm "p" ['a','a'] (['a'] ++ ['a','a']))).1 = .ok [] ∧
    ([] : List Char) ≠ ['a'] :=
  ⟨by decide, by decide, rfl, by decide⟩

/-- C1 witness: concrete run with terminator CR LF and body "3.1415". -/
theorem C1_witness :
    ((['\r','\n'] : List Char) ≠ [] ∧ regexLiteral ['\r','\n'] = true ∧
      onlyAtSuffix ['\r','\n'] (['3','.','1','4','1','5'] ++ ['\r','\n'])) ∧
    (lastReadMessage
      (mkComm "p" ['\r','\n'] (['3','.','1','4','1','5'] ++ ['\r','\n']))).1 =
        .ok ['3','.','1','4','1','5'] ∧
    (lastReadMessage (mkComm "p" ['\r','\n'] ['\r','\n'])).1 = .ok [] :=
  ⟨⟨by decide, by decide, by decide⟩,
    C1_framing_reads_message ['\r','\n'] ['3','.','1','4','1','5'] _ _
      (by decide) (by decide) rfl rfl (by decide) rfl rfl⟩

/-- C9 (amended): for every non-empty terminator T that contains no regex
metacharacter and stream M ++ T in which T occurs only as the final suffix,
the public character iterator yields every character read from the
transport — terminator included — so the yielded sequence is M followed by
T, and the terminator is removed only afterwards by the regex match of
`_last_read_message_from_device`. -/
theorem C9_iter_yields_terminator (T M : List Char) (s : CommState)
    (_hT : T ≠ []) (_hlit : regexLiteral T = true)
    (hterm : s.terminator = T) (hstream : s.stream = M ++ T)
    (honly : onlyAtSuffix T (M ++ T)) :
    iterRead s.terminator [] s.stream [] = some (M ++ T, []) ∧
    stripTerm T (M ++ T) = some M := by
  constructor
  · rw [hterm, hstream, iterRead_run]
    exact readSpec_onlySuffix T M honly
  · exact stripTerm_append T M

/-- C9 counterexample: with terminator "aba" and body "ab" — which does not
contain "aba" — the stream "ab" + "aba" = "ababa" is cut at the first
window match after three characters, so the iterator yields "aba", not the
claimed M followed by T. -/
theorem C9_counterexample_boundary_overlap :
    (['a','b','a'] : List Char) ≠ [] ∧
    ¬ containsSeq ['a','b','a'] ['a','b'] ∧
    iterRead ['a','b','a'] [] (['a','b'] ++ ['a','b','a']) [] =
      some (['a','b','a'], ['b','a']) ∧
    (['a','b','a'] : List Char) ≠ ['a','b'] ++ ['a','b','a'] :=
  ⟨by decide, by decide, by decide, by decide⟩

/-- C9 witness: concrete run with terminator LF and body "hi". -/
theorem C9_witness :
    ((['\n'] : List Char) ≠ [] ∧ regexLiteral ['\n'] = true ∧
      onlyAtSuffix ['\n'] (['h','i'] ++ ['\n'])) ∧
    iterRead (mkComm "p" ['\n'] (['h','i'] ++ ['\n'])).terminator []
        (mkComm "p" ['\n'] (['h','i'] ++ ['\n'])).stream [] =
      some (['h','i'] ++ ['\n'], []) ∧
    stripTerm ['\n'] (['h','i'] ++ ['\n']) = some ['h','i'] :=
  ⟨⟨by decide, by decide, by decide⟩,
    C9_iter_yields_terminator ['\n'] ['h','i'] _ (by decide) (by decide) rfl rfl
      (by decide)⟩

/-- C5: for every non-empty terminator T, reading from a stream
M ++ T ++ X stops exactly after the first contiguous occurrence of T — the
consumed part ends with T and no shorter stage of the window matched — and
consumes no character of X; concretely, with terminator "END" and stream
"ENDEND" the read consumes only the first three characters, yields the
empty body, and leaves the trailing "END" unconsumed. -/
theorem C5_first_match_wins (T M X : List Char) (_hT : T ≠ []) :
    (∃ P rem, iterRead T [] (M ++ (T ++ X)) [] = some (P, rem) ∧
      P ++ rem = M ++ (T ++ X) ∧
      lastN T.length P = T ∧
      (∀ Q, Q <+: P → Q.length < P.length → lastN T.length Q ≠ T) ∧
      X <:+ rem) ∧
    iterRead ['E','N','D'] [] (['E','N','D'] ++ ['E','N','D']) [] =
      some (['E','N','D'], ['E','N','D']) ∧
    stripTerm ['E','N','D'] ['E','N','D'] = some [] := by
  refine ⟨?_, by decide, by decide⟩
  obtain ⟨P, rem, hPr⟩ :=
    readSpec_total T (M ++ (T ++ X)) [] (M ++ T).length
      (by simp)
      (by
        rw [List.nil_append, show M ++ (T ++ X) = (M ++ T) ++ X by simp,
          List.take_left' rfl]
        exact lastN_append M T)
  have hsplit := readSpec_split T (M ++ (T ++ X)) [] P rem hPr
  have happ : P ++ rem = M ++ (T ++ X) := by simpa using hsplit.1
  have hend := readSpec_endsWith T (M ++ (T ++ X)) [] P rem hPr
  have hmin : ∀ Q, Q <+: P → Q.length < P.length → lastN T.length Q ≠ T := by
    intro Q hQP hlt
    exact readSpec_minimal T (M ++ (T ++ X)) [] P rem hPr Q List.nil_prefix hQP hlt
  have hlenP : P.length ≤ M.length + T.length := by
    by_contra hgt
    push_neg at hgt
    have hMTfull : M ++ T <+: P ++ rem := by
      rw [happ]
      exact ⟨X, by simp⟩
    have hMTpre : M ++ T <+: P := by
      apply List.prefix_of_prefix_length_le hMTfull ( List.prefix_append P rem)
      simp
      omega
    exact hmin (M ++ T) hMTpre (by simp; omega) (lastN_append M T)
  have hXs : X <:+ rem := by
    have h1 : X <:+ P ++ rem := by
      rw [happ]
      exact ⟨M ++ T, by simp⟩
    have h2 : rem <:+ P ++ rem := List.suffix_append P rem
    apply List.suffix_of_suffix_length_le h1 h2
    have := congrArg List.length happ
    simp at this
    omega
  exact ⟨P, rem, by rw [iterRead_run]; exact hPr, happ, hend, hmin, hXs⟩

/-- C5 witness: concrete first-match run with terminator "X", body "a" and
trailing junk "bc". -/
theorem C5_witness :
    (['X'] : List Char) ≠ [] ∧
    ((∃ P rem, iterRead ['X'] [] (['a'] ++ (['X'] ++ ['b','c'])) [] = some (P, rem) ∧
      P ++ rem = ['a'] ++ (['X'] ++ ['b','c']) ∧
      lastN (['X'] : List Char).length P = ['X'] ∧
      (∀ Q, Q <+: P → Q.length < P.length → lastN (['X'] : List Char).length Q ≠ ['X']) ∧
      (['b','c'] : List Char) <:+ rem) ∧
    iterRead ['E','N','D'] [] (['E','N','D'] ++ ['E','N','D']) [] =
      some (['E','N','D'], ['E','N','D']) ∧
    stripTerm ['E','N','D'] ['E','N','D'] = some []) :=
  ⟨by decide, C5_first_match_wins ['X'] ['a'] ['b','c'] (by decide)⟩

/-- C6: evaluation of the generator at terminator "ab" and stream "xab":
the iterator emits the first character after a single read — there is no
priming phase of length two — and it emits the terminator characters 'a'
and 'b' themselves, instead of the "x" alone that the lookahead discipline
(and the repository's own unit test TestIter.test_iter) require. -/
theorem C6_iter_has_no_lookahead :
    iterRead ['a','b'] [] ['x','a','b'] [] = some (['x','a','b'], []) ∧
    (['x','a','b'] : List Char) ≠ ['x'] :=
  ⟨by decide, by decide⟩

/-- C10: with the empty termination sequence reading raises no error: the
character iterator stops before its first read — the empty window already
equals the empty terminator — so no character is consumed, and a query
whose write succeeds returns the empty string. -/
theorem C10_empty_terminator_reads_empty (S : List Char) (s : CommState)
    (msg : List Char) (hterm : s.terminator = []) (hw : s.writeFault = none) :
    iterRead [] [] S [] = some ([], S) ∧
    (query msg s).1 = .ok [] ∧
    (query msg s).2.stream = s.stream := by
  refine ⟨iterRead_empty_term S, ?_⟩
  obtain ⟨heOpen, heStream, heCloses, heWritten, heTerm, heWF, heOpens⟩ := enterCtx_fields s
  cases hws : writeStep msg (enterCtx s) with
  | error e =>
    exfalso
    unfold writeStep at hws
    rw [heWF, hw] at hws
    simp at hws
  | ok s2 =>
    obtain ⟨hOpen2, hStr2, hCl2, hOp2, hTerm2, hWr2⟩ := writeStep_ok_fields hws
    have hterm2 : s2.terminator = [] := by rw [hTerm2, heTerm, hterm]
    have hlr := lastReadMessage_empty_term s2 hterm2
    rw [query_run hws hlr]
    refine ⟨rfl, ?_⟩
    have hex := (exitCtx_fields { s2 with stream := s2.stream }).2.1
    rw [hex]
    rw [show ({ s2 with stream := s2.stream } : CommState).stream = s2.stream from rfl,
      hStr2, heStream]

/-- C10 witness: concrete query with empty terminator and pending stream
"z". -/
theorem C10_witness :
    ((mkComm "p" [] ['z']).terminator = [] ∧ (mkComm "p" [] ['z']).writeFault = none) ∧
    iterRead [] [] ['z'] [] = some ([], ['z']) ∧
    (query ['m'] (mkComm "p" [] ['z'])).1 = .ok [] ∧
    (query ['m'] (mkComm "p" [] ['z'])).2.stream = (mkComm "p" [] ['z']).stream :=
  ⟨⟨rfl, rfl⟩, C10_empty_terminator_reads_empty ['z'] (mkComm "p" [] ['z']) ['m'] rfl rfl⟩

/-- Exiting the context manager on an open port is the underlying close. -/
lemma exitCtx_open (t : CommState) (h : t.portOpen = true) : exitCtx t = closePort t := by
  unfold exitCtx
  simp [h]

/-- C2: if the write step or the read step of a query raises, the scoped
close of `__exit__` still runs — the final port state is closed, and a port
this call opened has its underlying close performed — and the original
exception propagates to the caller unchanged. -/
theorem C2_error_scoped_close (s : CommState) (msg : List Char) (e : DevError)
    (herr : writeStep msg (enterCtx s) = .error e ∨
      ∃ s2, writeStep msg (enterCtx s) = .ok s2 ∧ (lastReadMessage s2).1 = .error e) :
    (query msg s).1 = .error e ∧
    (query msg s).2.portOpen = false ∧
    (s.portOpen = false → (query msg s).2.closes = s.closes + 1) := by
  obtain ⟨t, hq, hOpen, hCl⟩ :
      ∃ t : CommState, query msg s = (.error e, exitCtx t) ∧
        t.portOpen = true ∧ t.closes = s.closes := by
    rcases herr with hw | ⟨s2, hw, hr⟩
    · exact ⟨enterCtx s, query_write_error hw, (enterCtx_fields s).1,
        (enterCtx_fields s).2.2.1⟩
    · cases hlr : lastReadMessage s2 with
      | mk r s3 =>
        rw [hlr] at hr
        simp at hr
        subst hr
        refine ⟨s3, query_run hw hlr, ?_, ?_⟩
        · have h1 := (lastReadMessage_snd_fields s2).1
          rw [hlr] at h1
          simp at h1
          rw [h1, (writeStep_ok_fields hw).1, (enterCtx_fields s).1]
        · have h2 := (lastReadMessage_snd_fields s2).2.1
          rw [hlr] at h2
          simp at h2
          rw [h2, (writeStep_ok_fields hw).2.2.1, (enterCtx_fields s).2.2.1]
  rw [hq]
  refine ⟨rfl, (exitCtx_fields t).1, fun _ => ?_⟩
  rw [exitCtx_open t hOpen]
  unfold closePort
  simp [hCl]

/-- C2 witness: a query on a closed communicator whose write raises
transport error 7 returns that very error and leaves the port closed with
one close performed. -/
theorem C2_witness :
    (writeStep ['m'] (enterCtx { mkComm "p" ['\n'] [] with writeFault := some 7 }) =
        .error (.transport 7) ∨
      ∃ s2, writeStep ['m'] (enterCtx { mkComm "p" ['\n'] [] with writeFault := some 7 }) =
          .ok s2 ∧ (lastReadMessage s2).1 = .error (.transport 7)) ∧
    (query ['m'] { mkComm "p" ['\n'] [] with writeFault := some 7 }).1 =
      .error (.transport 7) ∧
    (query ['m'] { mkComm "p" ['\n'] [] with writeFault := some 7 }).2.portOpen = false ∧
    (({ mkComm "p" ['\n'] [] with writeFault := some 7 } : CommState).portOpen = false →
      (query ['m'] { mkComm "p" ['\n'] [] with writeFault := some 7 }).2.closes =
        ({ mkComm "p" ['\n'] [] with writeFault := some 7 } : CommState).closes + 1) :=
  ⟨Or.inl rfl,
    C2_error_scoped_close { mkComm "p" ['\n'] [] with writeFault := some 7 } ['m']
      (.transport 7) (Or.inl rfl)⟩

/-- C3 counterexample: a query made while the port is already open leaves
the port closed afterward — `__exit__` closes any open port, not only one
this call opened — refuting the already-open passthrough claim. -/
theorem C3_counterexample_closes_preopened_port :
    ({ mkComm "p" ['\r','\n'] ['o','k','\r','\n'] with portOpen := true } : CommState).portOpen
      = true ∧
    (query ['m'] { mkComm "p" ['\r','\n'] ['o','k','\r','\n'] with portOpen := true }).1 =
      .ok ['o','k'] ∧
    (query ['m'] { mkComm "p" ['\r','\n'] ['o','k','\r','\n'] with portOpen := true }).2.portOpen
      = false :=
  ⟨rfl, rfl, rfl⟩

/-- C3 (amended): after every query call — whatever the initial openness of
the port and whether the call returns or raises — the port is closed;
in particular a call made on an already-open port closes it. -/
theorem C3_port_always_closed_after_query (s : CommState) (msg : List Char) :
    (query msg s).2.portOpen = false := by
  cases hw : writeStep msg (enterCtx s) with
  | error e =>
    rw [query_write_error hw]
    exact (exitCtx_fields (enterCtx s)).1
  | ok s2 =>
    cases hlr : lastReadMessage s2 with
    | mk r s3 =>
      rw [query_run hw hlr]
      exact (exitCtx_fields s3).1

/-- C4: a query on a closed communicator whose write and read steps succeed
opens the port exactly once, performs the write and the read, returns the
message body, and leaves the port closed with the underlying close
performed. -/
theorem C4_closed_query_success (s : CommState) (msg y rest body : List Char)
    (hclosed : s.portOpen = false) (hwf : s.writeFault = none)
    (hiter : iterRead s.terminator [] s.stream [] = some (y, rest))
    (hstrip : stripTerm s.terminator y = some body) :
    (query msg s).1 = .ok body ∧
    (query msg s).2.portOpen = false ∧
    (query msg s).2.opens = s.opens + 1 ∧
    (query msg s).2.closes = s.closes + 1 ∧
    (query msg s).2.written = s.written ++ [msg] ∧
    (query msg s).2.stream = rest := by
  obtain ⟨heOpen, heStream, heCloses, heWritten, heTerm, heWF, heOpens⟩ := enterCtx_fields s
  cases hws : writeStep msg (enterCtx s) with
  | error e =>
    exfalso
    unfold writeStep at hws
    rw [heWF, hwf] at hws
    simp at hws
  | ok s2 =>
    obtain ⟨hOpen2, hStr2, hCl2, hOp2, hTerm2, hWr2⟩ := writeStep_ok_fields hws
    have hlr : lastReadMessage s2 = (.ok body, { s2 with stream := rest }) := by
      unfold lastReadMessage
      rw [hTerm2, heTerm, hStr2, heStream, hiter]
      simp [hstrip]
    have hTTopen : ({ s2 with stream := rest } : CommState).portOpen = true := by
      show s2.portOpen = true
      rw [hOpen2, heOpen]
    rw [query_run hws hlr, exitCtx_open _ hTTopen]
    unfold closePort
    refine ⟨rfl, rfl, ?_, ?_, ?_, rfl⟩
    · show s2.opens = s.opens + 1
      rw [hOp2, heOpens hclosed]
    · show s2.closes + 1 = s.closes + 1
      rw [hCl2, heCloses]
    · show s2.written = s.written ++ [msg]
      rw [hWr2, heWritten]

/-- C4 witness: a concrete query on a closed communicator with stream
"42" CR LF returns "42", with one open, one close, the message logged and
the stream drained. -/
theorem C4_witness :
    ((mkComm "p" ['\r','\n'] ['4','2','\r','\n']).portOpen = false ∧
      (mkComm "p" ['\r','\n'] ['4','2','\r','\n']).writeFault = none ∧
      iterRead (mkComm "p" ['\r','\n'] ['4','2','\r','\n']).terminator []
          (mkComm "p" ['\r','\n'] ['4','2','\r','\n']).stream [] =
        some (['4','2','\r','\n'], []) ∧
      stripTerm (mkComm "p" ['\r','\n'] ['4','2','\r','\n']).terminator
          ['4','2','\r','\n'] = some ['4','2']) ∧
    (query ['m'] (mkComm "p" ['\r','\n'] ['4','2','\r','\n'])).1 = .ok ['4','2'] ∧
    (query ['m'] (mkComm "p" ['\r','\n'] ['4','2','\r','\n'])).2.portOpen = false ∧
    (query ['m'] (mkComm "p" ['\r','\n'] ['4','2','\r','\n'])).2.opens =
      (mkComm "p" ['\r','\n'] ['4','2','\r','\n']).opens + 1 ∧
    (query ['m'] (mkComm "p" ['\r','\n'] ['4','2','\r','\n'])).2.closes =
      (mkComm "p" ['\r','\n'] ['4','2','\r','\n']).closes + 1 ∧
    (query ['m'] (mkComm "p" ['\r','\n'] ['4','2','\r','\n'])).2.written =
      (mkComm "p" ['\r','\n'] ['4','2','\r','\n']).written ++ [['m']] ∧
    (query ['m'] (mkComm "p" ['\r','\n'] ['4','2','\r','\n'])).2.stream = [] :=
  ⟨⟨rfl, rfl, by decide, by decide⟩,
    C4_closed_query_success (mkComm "p" ['\r','\n'] ['4','2','\r','\n']) ['m']
      ['4','2','\r','\n'] [] ['4','2'] rfl rfl (by decide) (by decide)⟩

/-- C7 counterexample: configuring the empty termination sequence is not
rejected — both the constructor and the setter are total and store the
empty string as the terminator, with no configuration error raised. -/
theorem C7_counterexample_empty_accepted :
    (mkComm "COM1" [] []).terminator = [] ∧
    (setTermChars (mkComm "COM1" ['\r','\n'] []) []).terminator = [] :=
  ⟨rfl, rfl⟩

/-- C7 (amended): an empty termination sequence is accepted at construction
and through the setter without any error: the value — empty or not — is
simply stored, and no validation happens at configuration time. -/
theorem C7_empty_terminator_accepted (p : String) (stream t : List Char) (s : CommState) :
    (mkComm p [] stream).terminator = [] ∧
    (setTermChars s []).terminator = [] ∧
    (setTermChars s t).terminator = t :=
  ⟨rfl, rfl, rfl⟩

/-- C8 counterexample: `SerialCommunicator.open` performs the underlying
transport open even when the port is already open, and calling it twice in
a row performs the underlying open twice, not once. -/
theorem C8_counterexample_open_not_guarded :
    ({ mkComm "p" ['\n'] [] with portOpen := true } : CommState).portOpen = true ∧
    (openPort { mkComm "p" ['\n'] [] with portOpen := true }).opens = 1 ∧
    (openPort (openPort (mkComm "p" ['\n'] []))).opens = 2 ∧
    (2 : Nat) ≠ 1 :=
  ⟨rfl, rfl, rfl, by decide⟩

/-- C8 (amended): `open` and `close` delegate to the underlying transport
unconditionally; the live-`is_open` idempotence guard lives in the context
manager instead: `__enter__` is a no-op on an open port, `__exit__` is a
no-op on a closed port, and entering or exiting twice in a row performs the
underlying operation at most once. -/
theorem C8_guard_is_in_context_manager (s t : CommState)
    (hs : s.portOpen = true) (ht : t.portOpen = false) :
    (openPort s).opens = s.opens + 1 ∧
    (closePort t).closes = t.closes + 1 ∧
    enterCtx s = s ∧
    exitCtx t = t ∧
    enterCtx (enterCtx t) = enterCtx t ∧
    exitCtx (exitCtx s) = exitCtx s := by
  refine ⟨rfl, rfl, ?_, ?_, ?_, ?_⟩
  · unfold enterCtx
    simp [hs]
  · unfold exitCtx
    simp [ht]
  · unfold enterCtx openPort
    simp [ht]
  · unfold exitCtx closePort
    simp [hs]

/-- C8 witness: the context-manager guards evaluated on one open and one
closed concrete communicator. -/
theorem C8_witness :
    (({ mkComm "p" ['\n'] [] with portOpen := true } : CommState).portOpen = true ∧
      (mkComm "q" ['\n'] []).portOpen = false) ∧
    ((openPort { mkComm "p" ['\n'] [] with portOpen := true }).opens =
        ({ mkComm "p" ['\n'] [] with portOpen := true } : CommState).opens + 1 ∧
      (closePort (mkComm "q" ['\n'] [])).closes = (mkComm "q" ['\n'] []).closes + 1 ∧
      enterCtx { mkComm "p" ['\n'] [] with portOpen := true } =
        { mkComm "p" ['\n'] [] with portOpen := true } ∧
      exitCtx (mkComm "q" ['\n'] []) = mkComm "q" ['\n'] [] ∧
      enterCtx (enterCtx (mkComm "q" ['\n'] [])) = enterCtx (mkComm "q" ['\n'] []) ∧
      exitCtx (exitCtx { mkComm "p" ['\n'] [] with portOpen := true }) =
        exitCtx { mkComm "p" ['\n'] [] with portOpen := true }) :=
  ⟨⟨rfl, rfl⟩,
    C8_guard_is_in_context_manager { mkComm "p" ['\n'] [] with portOpen := true }
      (mkComm "q" ['\n'] []) rfl rfl⟩

end MagWrap
